import Mathlib

/-
  Verification of the ring-arithmetic core of a Chord DHT implementation.

  The definitions below are a shallow embedding of `pkg/hash/hash.go`:
  a `Hash` is a 160-bit ring identifier stored as a `big.Int` that every
  constructor reduces modulo `2^160` (Go's `big.Int.Mod` is Euclidean, so
  the stored value is always non-negative).  We model the stored value as
  a `Nat` and constructor inputs as `Int` (a Go `big.Int` may be negative).

  `NewHashFromString` hashes the UTF-8 bytes of a string with SHA-1 and
  interprets the 20-byte digest as a big-endian unsigned integer; the
  SHA-1 compression function from Go's `crypto/sha1` is embedded below
  over `Nat` with explicit reduction modulo `2^32`.

  The node-state operations (`NewNode`, `Join`) are not part of the
  sources available here (only their tests are), so the single-node ring
  creation path is modelled from the specification text.
-/

set_option maxRecDepth 8000

namespace ChordHash

/-- Number of bits in the key space (`M` in `hash.go`). -/
def M : Nat := 160

/-- Size of the identifier ring, `2^M` (`MaxNodes` in `hash.go`). -/
def ringSize : Nat := 2 ^ M

/-- Reduction modulo `2^32`, the wrap-around of Go's `uint32` arithmetic. -/
def w32 (x : Nat) : Nat := x % 4294967296

/-- Left rotation of a 32-bit word by `n` bits. -/
def rotl32 (n x : Nat) : Nat := w32 ((x <<< n) ||| (x >>> (32 - n)))

/-- SHA-1 initial state `(h0, h1, h2, h3, h4)`. -/
def sha1InitState : Nat × Nat × Nat × Nat × Nat :=
  (0x67452301, 0xEFCDAB89, 0x98BADCFE, 0x10325476, 0xC3D2E1F0)

/-- SHA-1 round function, by round index. `x ^^^ 0xffffffff` is the
    32-bit complement of a word `x < 2^32`. -/
def sha1F (i b c d : Nat) : Nat :=
  if i < 20 then (b &&& c) ||| ((b ^^^ 0xffffffff) &&& d)
  else if i < 40 then b ^^^ c ^^^ d
  else if i < 60 then (b &&& c) ||| (b &&& d) ||| (c &&& d)
  else b ^^^ c ^^^ d

/-- SHA-1 round constant, by round index. -/
def sha1K (i : Nat) : Nat :=
  if i < 20 then 0x5A827999
  else if i < 40 then 0x6ED9EBA1
  else if i < 60 then 0x8F1BBCDC
  else 0xCA62C1D6

/-- Extend the 16 words of a block to the 80-word message schedule. -/
def extendSchedule (ws : List Nat) : List Nat :=
  (List.range 80).foldl
    (fun acc i =>
      if i < 16 then acc ++ [ws.getD i 0]
      else acc ++ [rotl32 1 ((acc.getD (i - 3) 0) ^^^ (acc.getD (i - 8) 0) ^^^
                             (acc.getD (i - 14) 0) ^^^ (acc.getD (i - 16) 0))])
    []

/-- One SHA-1 round: state `(a, b, c, d, e)`, input `(round index, schedule word)`. -/
def sha1Round (st : Nat × Nat × Nat × Nat × Nat) (iw : Nat × Nat) :
    Nat × Nat × Nat × Nat × Nat :=
  let temp := w32 (rotl32 5 st.1 + sha1F iw.1 st.2.1 st.2.2.1 st.2.2.2.1 +
                   st.2.2.2.2 + sha1K iw.1 + iw.2)
  (temp, st.1, rotl32 30 st.2.1, st.2.2.1, st.2.2.2.1)

/-- Fold the result of the 80 rounds back into the running state, each
    word wrapping modulo `2^32` (Go's `h0 += a`, ..., `h4 += e`). -/
def sha1Update (h r : Nat × Nat × Nat × Nat × Nat) : Nat × Nat × Nat × Nat × Nat :=
  (w32 (h.1 + r.1), w32 (h.2.1 + r.2.1), w32 (h.2.2.1 + r.2.2.1),
   w32 (h.2.2.2.1 + r.2.2.2.1), w32 (h.2.2.2.2 + r.2.2.2.2))

/-- SHA-1 compression of one 16-word block into the running state. -/
def sha1Block (h : Nat × Nat × Nat × Nat × Nat) (block : List Nat) :
    Nat × Nat × Nat × Nat × Nat :=
  sha1Update h (((List.range 80).zip (extendSchedule block)).foldl sha1Round h)

/-- Group a list of big-endian bytes into 32-bit words, four bytes a word. -/
def bytesToWords : List Nat → List Nat
  | b0 :: b1 :: b2 :: b3 :: rest =>
      (((b0 * 256 + b1) * 256 + b2) * 256 + b3) :: bytesToWords rest
  | _ => []

/-- The eight big-endian bytes of a 64-bit message length in bits. -/
def lenBytes64 (n : Nat) : List Nat :=
  [n / 2 ^ 56 % 256, n / 2 ^ 48 % 256, n / 2 ^ 40 % 256, n / 2 ^ 32 % 256,
   n / 2 ^ 24 % 256, n / 2 ^ 16 % 256, n / 2 ^ 8 % 256, n % 256]

/-- SHA-1 padding: a `0x80` byte, zeros to 56 mod 64, then the bit length. -/
def padMessage (msg : List Nat) : List Nat :=
  msg ++ [0x80] ++ List.replicate ((56 + 64 - (msg.length + 1) % 64) % 64) 0 ++
    lenBytes64 (msg.length * 8)

/-- Split a word list into 16-word blocks. -/
def toBlocks (l : List Nat) : List (List Nat) :=
  if h : l = [] then [] else l.take 16 :: toBlocks (l.drop 16)
termination_by l.length
decreasing_by
  simp only [List.length_drop]
  have : l.length ≠ 0 := fun hl => h (List.length_eq_zero.mp hl)
  omega

/-- The five 32-bit words of the SHA-1 digest of a byte string. -/
def sha1Words (msg : List Nat) : Nat × Nat × Nat × Nat × Nat :=
  (toBlocks (bytesToWords (padMessage msg))).foldl sha1Block sha1InitState

/-- The 20-byte digest read as a big-endian unsigned integer. -/
def digestValue (h : Nat × Nat × Nat × Nat × Nat) : Nat :=
  (((h.1 * 2 ^ 32 + h.2.1) * 2 ^ 32 + h.2.2.1) * 2 ^ 32 + h.2.2.2.1) * 2 ^ 32 +
    h.2.2.2.2

/-- SHA-1 of a byte string as a big-endian unsigned integer. -/
def sha1 (msg : List Nat) : Nat := digestValue (sha1Words msg)

/-- All five words of a SHA-1 state fit in 32 bits. -/
def bounded32 (st : Nat × Nat × Nat × Nat × Nat) : Prop :=
  st.1 < 2 ^ 32 ∧ st.2.1 < 2 ^ 32 ∧ st.2.2.1 < 2 ^ 32 ∧ st.2.2.2.1 < 2 ^ 32 ∧
    st.2.2.2.2 < 2 ^ 32

/-- The UTF-8 bytes of a string, as Go's `[]byte(s)` produces them. -/
def strBytes (s : String) : List Nat := s.toUTF8.toList.map (fun b => b.toNat)

/-- `NewHash`: reduce a (possibly negative) `big.Int` modulo `2^160`.
    Go's `big.Int.Mod` is Euclidean, so the result is in `[0, 2^160)`. -/
def NewHash (v : Int) : Nat := (v % (2 ^ 160 : Int)).toNat

/-- `NewHashFromString`: SHA-1 the string's bytes, read the digest
    big-endian, and reduce via `NewHash`. -/
def NewHashFromString (s : String) : Nat := NewHash ((sha1 (strBytes s) : Nat) : Int)

/-- `GenerateID`: a node's identifier is the hash of its address. -/
def GenerateID (address : String) : Nat := NewHashFromString address

/-- `Hash.Add`: sum with a `big.Int`, reduced by `NewHash`. -/
def Add (h : Nat) (v : Int) : Nat := NewHash ((h : Int) + v)

/-- `Hash.AddPowerOfTwo`: `h + 2^i` for `0 ≤ i < 160`; out-of-range `i`
    returns `NewHash` of the unchanged value. -/
def AddPowerOfTwo (h : Nat) (i : Int) : Nat :=
  if i < 0 ∨ 160 ≤ i then NewHash ((h : Nat) : Int)
  else Add h ((2 : Int) ^ i.toNat)

/-- `Hash.Equal`: comparison of the stored values. -/
def Equal (a b : Nat) : Bool := a == b

/-- `Hash.Less`: strict order on the stored values. -/
def Less (a b : Nat) : Bool := decide (a < b)

/-- `Hash.Distance`: clockwise distance from `h` to `target`; a negative
    difference wraps by adding `2^160`. -/
def Distance (h target : Nat) : Int :=
  let d : Int := (target : Int) - (h : Int)
  if d < 0 then d + (2 : Int) ^ 160 else d

/-- `Hash.InRange`: membership of `h` in the closed-right arc `(s, e]`.
    (`e` stands for the Go parameter `end`, a reserved word in Lean.) -/
def InRange (h s e : Nat) : Bool :=
  if Equal s e then !(Equal h s)
  else if Less s e then Less s h && (Less h e || Equal h e)
  else Less s h || Less h e || Equal h e

/-- `Hash.InRangeExclusive`: membership of `h` in the open arc `(s, e)`. -/
def InRangeExclusive (h s e : Nat) : Bool :=
  if Equal s e then false
  else if Less s e then Less s h && Less h e
  else Less s h || Less h e

/-- `Hash.Copy`: a fresh hash with the same value, built through `NewHash`. -/
def Copy (h : Nat) : Nat := NewHash ((h : Nat) : Int)

/-- `FingerStart`: `(n + 2^(i-1)) mod 2^160` for `1 ≤ i ≤ 160`; other `i`
    return a copy of the node id. -/
def FingerStart (nodeID : Nat) (i : Int) : Nat :=
  if i ≤ 0 ∨ 160 < i then Copy nodeID
  else AddPowerOfTwo nodeID (i - 1)

/-- Value of a hexadecimal digit, if the character is one. -/
def hexDigit? (c : Char) : Option Nat :=
  if '0' ≤ c ∧ c ≤ '9' then some (c.toNat - 48)
  else if 'a' ≤ c ∧ c ≤ 'f' then some (c.toNat - 87)
  else if 'A' ≤ c ∧ c ≤ 'F' then some (c.toNat - 55)
  else none

/-- Value of a non-empty all-hex character list, as in `big.Int.SetString`
    with base 16. -/
def hexValue? (cs : List Char) : Option Nat :=
  if cs.isEmpty then none
  else cs.foldl (fun acc c => acc.bind fun n => (hexDigit? c).map fun d => n * 16 + d)
    (some 0)

/-- `big.Int.SetString(s, 16)`: an optional sign followed by one or more
    hex digits. -/
def setString16 (s : String) : Option Int :=
  match s.data with
  | '-' :: rest => (hexValue? rest).map fun n => -(n : Int)
  | '+' :: rest => (hexValue? rest).map fun n => (n : Int)
  | cs => (hexValue? cs).map fun n => (n : Int)

/-- `NewHashFromHex`: parse as base-16 `big.Int`, then reduce via `NewHash`;
    `none` models the error return for an invalid hex string. -/
def NewHashFromHex (s : String) : Option Nat := (setString16 s).map NewHash

/-- Value of a decimal digit, if the character is one. -/
def decDigit? (c : Char) : Option Nat :=
  if '0' ≤ c ∧ c ≤ '9' then some (c.toNat - 48) else none

/-- Value of a non-empty all-decimal character list. -/
def decValue? (cs : List Char) : Option Nat :=
  if cs.isEmpty then none
  else cs.foldl (fun acc c => acc.bind fun n => (decDigit? c).map fun d => n * 10 + d)
    (some 0)

/-- `strconv.ParseInt(s, 10, 64)`: optional sign, decimal digits, and the
    signed 64-bit range check. -/
def parseInt64 (s : String) : Option Int :=
  match s.data with
  | '-' :: rest => (decValue? rest).bind fun n =>
      if (n : Int) ≤ 2 ^ 63 then some (-(n : Int)) else none
  | '+' :: rest => (decValue? rest).bind fun n =>
      if (n : Int) < 2 ^ 63 then some (n : Int) else none
  | cs => (decValue? cs).bind fun n =>
      if (n : Int) < 2 ^ 63 then some (n : Int) else none

/-- `ParseNodeID`: try hex, then 64-bit decimal, then fall back to hashing
    the string; the `Except` mirrors the Go `(*Hash, error)` return. -/
def ParseNodeID (idStr : String) : Except String Nat :=
  match NewHashFromHex idStr with
  | some h => Except.ok h
  | none =>
      match parseInt64 idStr with
      | some v => Except.ok (NewHash v)
      | none => Except.ok (NewHashFromString idStr)

/-- A node descriptor: an identifier and a network address. -/
structure NodeDescriptor where
  id : Nat
  address : String
deriving DecidableEq

/-- The routing state of a node: own descriptor, successor, optional
    predecessor, and the finger table. -/
structure Node where
  self : NodeDescriptor
  successor : NodeDescriptor
  predecessor : Option NodeDescriptor
  fingers : List NodeDescriptor
deriving DecidableEq

/-- The number of finger-table entries, one per bit of the key space. -/
def FingerTableSize : Nat := 160

/-- Modelled from the spec: the node constructor (`NewNode`) is not among
    the sources here (only its tests are).  Per the spec, a node is created
    with an address and an id (derived from the address when absent), and
    every finger entry is initialized to self. -/
def NewNode (address : String) (id : Option Nat) : Node :=
  let d : NodeDescriptor := ⟨id.getD (GenerateID address), address⟩
  ⟨d, d, none, List.replicate FingerTableSize d⟩

/-- Modelled from the spec: the `Join` method is not among the sources here
    (only its tests are).  Per the spec, joining with an empty bootstrap
    creates a new single-node ring: `successor = self`, `predecessor = none`,
    every finger entry = self. -/
def joinEmptyBootstrap (n : Node) : Node :=
  { n with successor := n.self, predecessor := none,
           fingers := List.replicate FingerTableSize n.self }

/-! Helper lemmas shared by the claim theorems. -/

theorem newHash_lt_ring (v : Int) : NewHash v < 2 ^ 160 := by
  unfold NewHash
  have hpos : (0 : Int) < 2 ^ 160 := by positivity
  have h1 : v % (2 ^ 160 : Int) < (2 ^ 160 : Int) := Int.emod_lt_of_pos v hpos
  have h2 : (0 : Int) ≤ v % (2 ^ 160 : Int) := Int.emod_nonneg v (by positivity)
  have h3 : ((2 ^ 160 : Nat) : Int) = (2 ^ 160 : Int) := by norm_cast
  omega

theorem newHash_id {n : Nat} (h : n < 2 ^ 160) : NewHash ((n : Nat) : Int) = n := by
  unfold NewHash
  have h3 : ((2 ^ 160 : Nat) : Int) = (2 ^ 160 : Int) := by norm_cast
  have h4 : ((n : Nat) : Int) % (2 ^ 160 : Int) = ((n : Nat) : Int) := by
    apply Int.emod_eq_of_lt (Int.natCast_nonneg n)
    omega
  rw [h4]
  simp

theorem inRange_iff (h s e : Nat) :
    InRange h s e = true ↔
      (if s = e then h ≠ s else if s < e then s < h ∧ h ≤ e else s < h ∨ h ≤ e) := by
  unfold InRange Equal Less
  by_cases h1 : s = e <;> by_cases h2 : s < e <;> simp [h1, h2] <;> omega

theorem distance_eq (h t : Nat) :
    Distance h t =
      if (t : Int) - (h : Int) < 0 then (t : Int) - (h : Int) + (2 : Int) ^ 160
      else (t : Int) - (h : Int) := rfl

theorem sha1Update_bounded (h r : Nat × Nat × Nat × Nat × Nat) :
    bounded32 (sha1Update h r) := by
  unfold bounded32 sha1Update w32
  refine ⟨?_, ?_, ?_, ?_, ?_⟩ <;> dsimp only <;> omega

theorem sha1Block_bounded (st : Nat × Nat × Nat × Nat × Nat) (blk : List Nat) :
    bounded32 (sha1Block st blk) := by
  unfold sha1Block
  exact sha1Update_bounded st _

theorem foldl_sha1Block_bounded (blocks : List (List Nat)) :
    ∀ init : Nat × Nat × Nat × Nat × Nat, bounded32 init →
      bounded32 (blocks.foldl sha1Block init) := by
  induction blocks with
  | nil => intro init hb; rw [List.foldl_nil]; exact hb
  | cons b bs ih =>
      intro init _
      rw [List.foldl_cons]
      exact ih _ (sha1Block_bounded init b)

theorem sha1_lt_ring (msg : List Nat) : sha1 msg < 2 ^ 160 := by
  have hb : bounded32 (sha1Words msg) := by
    unfold sha1Words
    exact foldl_sha1Block_bounded _ sha1InitState (by norm_num [bounded32, sha1InitState])
  obtain ⟨b0, b1, b2, b3, b4⟩ := hb
  unfold sha1 digestValue
  omega

theorem getD_replicate {α : Type} (d a : α) :
    ∀ k i : Nat, i < k → (List.replicate k a).getD i d = a := by
  intro k
  induction k with
  | zero => intro i hi; omega
  | succ m ih =>
      intro i hi
      cases i with
      | zero => rfl
      | succ j => exact ih j (by omega)

theorem newHashFromHex_lt {t : String} {x : Nat} (hx : NewHashFromHex t = some x) :
    x < 2 ^ 160 := by
  unfold NewHashFromHex at hx
  cases h : setString16 t with
  | none => rw [h] at hx; simp at hx
  | some w =>
      rw [h] at hx
      simp only [Option.map_some'] at hx
      cases hx
      exact newHash_lt_ring w

end ChordHash

namespace ChordHash

/-- C1: `InRange` implements the closed-right ring interval `(a, b]`: the
whole ring minus `a` when `a = b`; `a < x ≤ b` when `a < b`; and
`x > a ∨ x ≤ b` when `a > b` (the interval wraps zero).  On the concrete
inputs `a = 200`, `b = 10`: 5 and 10 are inside, 150 and 200 are outside. -/
theorem C1_inRange_cases :
    (∀ x a b : Nat, InRange x a b = true ↔
      (if a = b then x ≠ a else if a < b then a < x ∧ x ≤ b else x > a ∨ x ≤ b)) ∧
    InRange 5 200 10 = true ∧ InRange 150 200 10 = false ∧
    InRange 10 200 10 = true ∧ InRange 200 200 10 = false :=
  ⟨fun x a b => inRange_iff x a b, by decide, by decide, by decide, by decide⟩

/-- C4: `InRangeExclusive` implements the fully-open ring interval `(a, b)`:
empty when `a = b`; `a < x < b` when `a < b`; and `x > a ∨ x < b` when
`a > b` (the interval wraps zero). -/
theorem C4_inRangeExclusive_cases :
    ∀ x a b : Nat, InRangeExclusive x a b = true ↔
      (if a = b then False else if a < b then a < x ∧ x < b else x > a ∨ x < b) := by
  intro x a b
  unfold InRangeExclusive Equal Less
  by_cases h1 : a = b <;> by_cases h2 : a < b <;> simp [h1, h2]

/-- C3 counterexample: at `a = b = x = 0` the closed-right test `x ∈ (a, b]`
is false (the whole ring except `a`), but the claimed right-hand side is
true because `x = b`; so the equivalence does not hold at `a = b`. -/
theorem C3_counterexample :
    ¬ (InRange 0 0 0 = true ↔
        ((0 : Nat) = 0 ∨ ((0 : Nat) ≠ 0 ∧ Distance 0 0 < Distance 0 0))) := by
  decide

/-- C3 (amended): for identifiers `x, a, b` in `[0, 2^160)` with `a ≠ b`,
`x ∈ (a, b]` holds iff `x = b`, or `x ≠ a` and the clockwise distance from
`a` to `x` is strictly smaller than the clockwise distance from `a` to `b`;
when `a = b` the equivalence fails for every `x` (see the counterexample). -/
theorem C3_inRange_distance (x a b : Nat) (hx : x < 2 ^ 160) (ha : a < 2 ^ 160)
    (hb : b < 2 ^ 160) (hab : a ≠ b) :
    (InRange x a b = true ↔ (x = b ∨ (x ≠ a ∧ Distance a x < Distance a b))) := by
  have h3 : ((2 ^ 160 : Nat) : Int) = (2 ^ 160 : Int) := by norm_cast
  rw [inRange_iff, distance_eq, distance_eq]
  split_ifs <;> omega

/-- Witness for C3 (amended) at `x = 5`, `a = 200`, `b = 10`. -/
theorem C3_inRange_distance_witness :
    (5 : Nat) < 2 ^ 160 ∧ (200 : Nat) < 2 ^ 160 ∧ (10 : Nat) < 2 ^ 160 ∧
    (200 : Nat) ≠ 10 ∧
    (InRange 5 200 10 = true ↔
      ((5 : Nat) = 10 ∨ ((5 : Nat) ≠ 200 ∧ Distance 200 5 < Distance 200 10))) :=
  ⟨by decide, by decide, by decide, by decide,
   C3_inRange_distance 5 200 10 (by decide) (by decide) (by decide) (by decide)⟩

/-- C5: for `1 ≤ i ≤ 160`, `FingerStart n i` equals `(n + 2^(i-1)) mod 2^160`;
for node id 100, starts 1 through 4 are 101, 102, 104, 108, and start 8 is
228. -/
theorem C5_fingerStart_formula (n : Nat) (i : Int) (h1 : 1 ≤ i) (h2 : i ≤ 160) :
    FingerStart n i = (n + 2 ^ (i - 1).toNat) % 2 ^ 160 ∧
    FingerStart 100 1 = 101 ∧ FingerStart 100 2 = 102 ∧ FingerStart 100 3 = 104 ∧
    FingerStart 100 4 = 108 ∧ FingerStart 100 8 = 228 := by
  refine ⟨?_, by decide, by decide, by decide, by decide, by decide⟩
  unfold FingerStart AddPowerOfTwo Add NewHash
  rw [if_neg (by omega : ¬ (i ≤ 0 ∨ 160 < i)), if_neg (by omega : ¬ (i - 1 < 0 ∨ 160 ≤ i - 1))]
  have e1 : ((n : Int) + (2 : Int) ^ (i - 1).toNat) = ((n + 2 ^ (i - 1).toNat : Nat) : Int) := by
    push_cast
    ring
  have e2 : (2 ^ 160 : Int) = ((2 ^ 160 : Nat) : Int) := by norm_cast
  rw [e1, e2, ← Int.natCast_mod, Int.toNat_natCast]

/-- Witness for C5 at `n = 100`, `i = 8`. -/
theorem C5_fingerStart_formula_witness :
    (1 : Int) ≤ 8 ∧ (8 : Int) ≤ 160 ∧
    (FingerStart 100 8 = (100 + 2 ^ ((8 : Int) - 1).toNat) % 2 ^ 160 ∧
     FingerStart 100 1 = 101 ∧ FingerStart 100 2 = 102 ∧ FingerStart 100 3 = 104 ∧
     FingerStart 100 4 = 108 ∧ FingerStart 100 8 = 228) :=
  ⟨by decide, by decide, C5_fingerStart_formula 100 8 (by decide) (by decide)⟩

/-- C6: `NewHashFromString` (and `GenerateID`) produce exactly the SHA-1
digest of the string's UTF-8 bytes read as a big-endian unsigned integer:
that integer is always below `2^160`, so the modular reduction performed by
`NewHash` leaves it unchanged. -/
theorem C6_newHashFromString_sha1 (s : String) :
    NewHashFromString s = sha1 (strBytes s) ∧
    GenerateID s = sha1 (strBytes s) ∧
    sha1 (strBytes s) < 2 ^ 160 := by
  have h := sha1_lt_ring (strBytes s)
  exact ⟨newHash_id h, newHash_id h, h⟩

/-- C7: `Add` is addition modulo `2^160`: for every identifier `h` and
non-negative integer `v` the result is `(h + v) mod 2^160`, and building a
hash from the value `2^160` itself yields the identifier 0. -/
theorem C7_add_mod (h v : Nat) (hh : h < 2 ^ 160) :
    Add h ((v : Nat) : Int) = (h + v) % 2 ^ 160 ∧
    NewHash ((2 ^ 160 : Nat) : Int) = 0 := by
  constructor
  · unfold Add NewHash
    have e1 : ((h : Int) + ((v : Nat) : Int)) = ((h + v : Nat) : Int) := by
      push_cast
      ring
    have e2 : (2 ^ 160 : Int) = ((2 ^ 160 : Nat) : Int) := by norm_cast
    rw [e1, e2, ← Int.natCast_mod, Int.toNat_natCast]
  · unfold NewHash
    have e2 : (2 ^ 160 : Int) = ((2 ^ 160 : Nat) : Int) := by norm_cast
    rw [e2, ← Int.natCast_mod, Int.toNat_natCast, Nat.mod_self]

/-- Witness for C7 at `h = 3`, `v = 5`. -/
theorem C7_add_mod_witness :
    (3 : Nat) < 2 ^ 160 ∧
    (Add 3 ((5 : Nat) : Int) = (3 + 5) % 2 ^ 160 ∧
     NewHash ((2 ^ 160 : Nat) : Int) = 0) :=
  ⟨by decide, C7_add_mod 3 5 (by decide)⟩

/-- C8: every exported constructor or operation of the ring-arithmetic
package returns a value in `[0, 2^160)`, including on negative inputs
(such as a hex string with a leading minus sign) and on inputs of `2^160`
or more. -/
theorem C8_outputs_in_range (v : Int) (s t : String) (n : Nat) (i : Int) :
    NewHash v < 2 ^ 160 ∧ NewHashFromString s < 2 ^ 160 ∧
    (∀ x : Nat, NewHashFromHex t = some x → x < 2 ^ 160) ∧
    Add n v < 2 ^ 160 ∧ AddPowerOfTwo n i < 2 ^ 160 ∧ Copy n < 2 ^ 160 ∧
    FingerStart n i < 2 ^ 160 ∧
    (∀ x : Nat, ParseNodeID t = Except.ok x → x < 2 ^ 160) := by
  refine ⟨newHash_lt_ring v, newHash_lt_ring _, ?_, newHash_lt_ring _, ?_, newHash_lt_ring _, ?_, ?_⟩
  · intro x hx
    exact newHashFromHex_lt hx
  · unfold AddPowerOfTwo Add
    split_ifs <;> exact newHash_lt_ring _
  · unfold FingerStart AddPowerOfTwo Add Copy
    split_ifs <;> exact newHash_lt_ring _
  · intro x hx
    unfold ParseNodeID at hx
    cases h1 : NewHashFromHex t with
    | some w =>
        rw [h1] at hx
        simp only [Except.ok.injEq] at hx
        subst hx
        exact newHashFromHex_lt h1
    | none =>
        rw [h1] at hx
        cases h2 : parseInt64 t with
        | some w =>
            rw [h2] at hx
            simp only [Except.ok.injEq] at hx
            subst hx
            exact newHash_lt_ring _
        | none =>
            rw [h2] at hx
            simp only [Except.ok.injEq] at hx
            subst hx
            exact newHash_lt_ring _

/-- Witness for C8: the negative hex string `"-ff"` parses and its hash is
in range. -/
theorem C8_outputs_in_range_witness :
    NewHashFromHex "-ff" = some (2 ^ 160 - 255) ∧ (2 ^ 160 - 255 : Nat) < 2 ^ 160 :=
  ⟨by decide, (C8_outputs_in_range (-255) "" "-ff" 0 0).2.2.1 _ (by decide)⟩

/-- C9: `ParseNodeID` is total: every string yields `ok` with an identifier
and no error; a string that is neither hexadecimal nor decimal falls back
to being SHA-1 hashed instead of being rejected. -/
theorem C9_parseNodeID_total (s : String) :
    (∃ h : Nat, ParseNodeID s = Except.ok h) ∧
    (NewHashFromHex s = none → parseInt64 s = none →
      ParseNodeID s = Except.ok (NewHashFromString s)) := by
  constructor
  · unfold ParseNodeID
    cases NewHashFromHex s with
    | some w => exact ⟨w, rfl⟩
    | none =>
        cases parseInt64 s with
        | some w => exact ⟨NewHash w, rfl⟩
        | none => exact ⟨NewHashFromString s, rfl⟩
  · intro h1 h2
    unfold ParseNodeID
    rw [h1, h2]

/-- Witness for C9: `"xyz"` parses as neither hex nor decimal and falls
back to the SHA-1 hash. -/
theorem C9_parseNodeID_total_witness :
    NewHashFromHex "xyz" = none ∧ parseInt64 "xyz" = none ∧
    ParseNodeID "xyz" = Except.ok (NewHashFromString "xyz") :=
  ⟨by decide, by decide,
   (C9_parseNodeID_total "xyz").2 (by decide) (by decide)⟩

/-- C10: out-of-range finger indices are silently clamped: for every
identifier `h`, `AddPowerOfTwo h i` with `i < 0` or `i ≥ 160` returns `h`
unchanged, and `FingerStart h i` with `i ≤ 0` or `i > 160` returns a copy
of `h`; no error is signalled. -/
theorem C10_index_clamping (h : Nat) (i : Int) (hh : h < 2 ^ 160) :
    ((i < 0 ∨ 160 ≤ i) → AddPowerOfTwo h i = h) ∧
    ((i ≤ 0 ∨ 160 < i) → FingerStart h i = h) := by
  constructor
  · intro hi
    unfold AddPowerOfTwo
    rw [if_pos hi]
    exact newHash_id hh
  · intro hi
    unfold FingerStart Copy
    rw [if_pos hi]
    exact newHash_id hh

/-- Witness for C10 at `h = 7`, `i = -1` and `i = 200`. -/
theorem C10_index_clamping_witness :
    (7 : Nat) < 2 ^ 160 ∧ AddPowerOfTwo 7 (-1) = 7 ∧ FingerStart 7 (-1) = 7 ∧
    AddPowerOfTwo 7 200 = 7 ∧ FingerStart 7 200 = 7 :=
  ⟨by decide,
   (C10_index_clamping 7 (-1) (by decide)).1 (Or.inl (by decide)),
   (C10_index_clamping 7 (-1) (by decide)).2 (Or.inl (by decide)),
   (C10_index_clamping 7 200 (by decide)).1 (Or.inr (by decide)),
   (C10_index_clamping 7 200 (by decide)).2 (Or.inr (by decide))⟩

/-- C2: joining with an empty bootstrap (ring creation) leaves any node in
the single-node-ring state: successor is its own descriptor, predecessor is
none, and all 160 finger entries equal self.  (The `Join` implementation is
modelled from the spec; only its tests are among the sources.) -/
theorem C2_join_empty_ring (n : Node) :
    (joinEmptyBootstrap n).successor = (joinEmptyBootstrap n).self ∧
    (joinEmptyBootstrap n).predecessor = none ∧
    (joinEmptyBootstrap n).fingers.length = 160 ∧
    (∀ i : Nat, i < 160 →
      (joinEmptyBootstrap n).fingers.getD i ⟨0, ""⟩ = (joinEmptyBootstrap n).self) := by
  refine ⟨rfl, rfl, by simp [joinEmptyBootstrap, FingerTableSize], ?_⟩
  intro i hi
  exact getD_replicate _ _ 160 i hi

/-- Witness for C2 on a concrete freshly created node. -/
theorem C2_join_empty_ring_witness :
    (0 : Nat) < 160 ∧
    (joinEmptyBootstrap (NewNode "localhost:8002" (some 1))).fingers.getD 0 ⟨0, ""⟩ =
      (joinEmptyBootstrap (NewNode "localhost:8002" (some 1))).self :=
  ⟨by decide, (C2_join_empty_ring (NewNode "localhost:8002" (some 1))).2.2.2 0 (by decide)⟩

end ChordHash
